import Mathlib

/-!
Verification of the Nova engine core: a shallow embedding of the Array
exotic object's internal methods (`src/nova_vm/src/ecmascript/builtins/array.rs`),
the bytecode iteration protocol (`src/nova_vm/src/engine/bytecode/iterator.rs`),
and the eval machinery (`src/nova_vm/src/ecmascript/builtins/global_object.rs`),
together with theorems settling the specification's claims about them.

Supporting modules that are not part of the provided sources (element storage,
`ElementDescriptor` conversions, ordinary-object internal methods, environment
records, `ArraySetLength`) are modelled from the specification text; each such
definition carries a doc comment starting with `Modelled from the spec:`.
-/

namespace Nova

/-- Modelled from the spec: the `Value` tagged union (§3). Only the variants
the claims exercise are carried; `Obj` and `Sym` stand for handles into the
typed arenas. -/
inductive Value where
  | Undefined
  | Null
  | Boolean (b : Bool)
  | SmallInt (i : Int)
  | Str (s : String)
  | Obj (n : Nat)
  deriving DecidableEq

/-- The source's `PropertyKey`: integer-index keys, string keys and symbol
keys. Symbols are identified by their arena index. -/
inductive PropertyKey where
  | Integer (i : Int)
  | Str (s : String)
  | Symbol (n : Nat)
  deriving DecidableEq

/-- The `"length"` property key (`BUILTIN_STRING_MEMORY.length`). -/
def lengthKey : PropertyKey := PropertyKey.Str ("length")

/-- The `ARRAY_INDEX_RANGE = 0..=(2^32 - 2)` constant from `array.rs`. -/
def inArrayIndexRange (i : Int) : Prop := 0 ≤ i ∧ i ≤ 2 ^ 32 - 2

instance (i : Int) : Decidable (inArrayIndexRange i) := by
  unfold inArrayIndexRange; infer_instance

/-- Modelled from the spec: `ElementDescriptor` (§3), the out-of-band side
table entry for a slot with non-default attributes or an accessor pair.
`writable` is present exactly for data variants; getter/setter functions are
identified by their arena index. -/
structure ElementDescriptor where
  getter : Option Nat
  setter : Option Nat
  writable : Option Bool
  enumerable : Bool
  configurable : Bool
  deriving DecidableEq

namespace ElementDescriptor

def is_accessor_descriptor (d : ElementDescriptor) : Bool :=
  d.getter.isSome || d.setter.isSome

def is_data_descriptor (d : ElementDescriptor) : Bool :=
  !d.is_accessor_descriptor

def is_configurable (d : ElementDescriptor) : Bool := d.configurable

def is_enumerable (d : ElementDescriptor) : Bool := d.enumerable

def is_writable (d : ElementDescriptor) : Option Bool := d.writable

/-- The `WritableEnumerableConfigurableData` variant: a plain data slot with
all-default attributes. -/
def wecData : ElementDescriptor :=
  { getter := none, setter := none, writable := some true,
    enumerable := true, configurable := true }

end ElementDescriptor

/-- A property descriptor (`PropertyDescriptor` in the source): every field
optional, exactly as in ECMA-262. Getter/setter functions are identified by
their arena index. -/
structure PropertyDescriptor where
  value : Option Value := none
  writable : Option Bool := none
  get : Option Nat := none
  set : Option Nat := none
  enumerable : Option Bool := none
  configurable : Option Bool := none
  deriving DecidableEq

namespace PropertyDescriptor

def is_accessor_descriptor (d : PropertyDescriptor) : Bool :=
  d.get.isSome || d.set.isSome

def is_data_descriptor (d : PropertyDescriptor) : Bool :=
  d.value.isSome || d.writable.isSome

def is_generic_descriptor (d : PropertyDescriptor) : Bool :=
  !d.is_accessor_descriptor && !d.is_data_descriptor

def has_fields (d : PropertyDescriptor) : Bool :=
  d.value.isSome || d.writable.isSome || d.get.isSome || d.set.isSome ||
    d.enumerable.isSome || d.configurable.isSome

end PropertyDescriptor

/-- Modelled from the spec: `SameValue` (`testing_and_comparison.rs` is not in
the sources). On the carried `Value` variants it coincides with equality. -/
def same_value (a b : Value) : Bool := a == b

/-- Modelled from the spec: `ElementDescriptor::new_with_wec` — a data
descriptor entry is stored in the side table only when its attributes are
non-default; `{true, true, true}` is represented by absence (§3). -/
def ElementDescriptor.new_with_wec (w e c : Bool) : Option ElementDescriptor :=
  if w && e && c then none
  else some { getter := none, setter := none, writable := some w,
              enumerable := e, configurable := c }

/-- Modelled from the spec: `ElementDescriptor::from_property_descriptor`.
Missing attribute fields default to `false` (ECMA-262 CompletePropertyDescriptor);
an all-default data descriptor maps to `none` (no side-table entry). -/
def ElementDescriptor.from_property_descriptor (d : PropertyDescriptor) :
    Option ElementDescriptor :=
  if d.is_accessor_descriptor then
    some { getter := d.get, setter := d.set, writable := none,
           enumerable := d.enumerable.getD false,
           configurable := d.configurable.getD false }
  else
    ElementDescriptor.new_with_wec (d.writable.getD false)
      (d.enumerable.getD false) (d.configurable.getD false)

/-- Modelled from the spec: `ElementDescriptor::to_property_descriptor` — a
slot with a value and no side-table entry has the default attributes
`{writable, enumerable, configurable} = {true, true, true}` (§3). -/
def ElementDescriptor.to_property_descriptor (d : Option ElementDescriptor)
    (v : Option Value) : PropertyDescriptor :=
  match d with
  | none =>
    { value := v, writable := some true, get := none, set := none,
      enumerable := some true, configurable := some true }
  | some d =>
    if d.is_accessor_descriptor then
      { value := none, writable := none, get := d.getter, set := d.setter,
        enumerable := some d.enumerable, configurable := some d.configurable }
    else
      { value := v, writable := d.writable, get := none, set := none,
        enumerable := some d.enumerable, configurable := some d.configurable }

/-- Modelled from the spec: `SealableElementsVector` plus its element storage
(§3, §4.2): `values` is the live slice `[0, len)` (capacity is abstracted
away — `reserve` only moves the backing allocation), `descriptors` is the
sparse side table `index → ElementDescriptor`, and `len_writable` is the
`length` property's writability bit, which doubles as the vector's
extensibility. -/
structure SealableElementsVector where
  values : List (Option Value)
  descriptors : List (Nat × ElementDescriptor)
  len_writable : Bool
  deriving DecidableEq

namespace SealableElementsVector

def len (e : SealableElementsVector) : Nat := e.values.length

def writable (e : SealableElementsVector) : Bool := e.len_writable

/-- Read the slot at `i` (absent ⇒ `none`, also out of bounds). -/
def getValue (e : SealableElementsVector) (i : Nat) : Option Value :=
  e.values.getD i none

/-- Look up the side-table entry for slot `i`. -/
def getDescriptor (e : SealableElementsVector) (i : Nat) : Option ElementDescriptor :=
  (e.descriptors.find? (fun p => p.1 == i)).map (fun p => p.2)

def setValue (e : SealableElementsVector) (i : Nat) (v : Option Value) :
    SealableElementsVector :=
  { e with values := e.values.set i v }

def setDescriptor (e : SealableElementsVector) (i : Nat) (d : ElementDescriptor) :
    SealableElementsVector :=
  { e with descriptors := (i, d) :: e.descriptors.filter (fun p => p.1 != i) }

def removeDescriptor (e : SealableElementsVector) (i : Nat) :
    SealableElementsVector :=
  { e with descriptors := e.descriptors.filter (fun p => p.1 != i) }

/-- Source `SealableElementsVector::push`: append a slot (its value may be absent)
and, when present, record its descriptor at the new index. -/
def push (e : SealableElementsVector) (v : Option Value)
    (d : Option ElementDescriptor) : SealableElementsVector :=
  { e with
    values := e.values ++ [v],
    descriptors :=
      match d with
      | some dd => (e.values.length, dd) :: e.descriptors
      | none => e.descriptors }

/-- Grow the live slice to `n` slots, filling with holes (`reserve` plus the
`len = index` write in `try_define_own_property`). -/
def growTo (e : SealableElementsVector) (n : Nat) : SealableElementsVector :=
  { e with values := e.values ++ List.replicate (n - e.values.length) none }

/-- A slot is a hole when both its value is absent and it has no descriptor. -/
def isHole (e : SealableElementsVector) (i : Nat) : Prop :=
  e.getValue i = none ∧ e.getDescriptor i = none

instance (e : SealableElementsVector) (i : Nat) : Decidable (e.isHole i) := by
  unfold isHole; infer_instance

end SealableElementsVector

/-- Modelled from the spec: the lazily-created backing `OrdinaryObject` for an
Array's non-integer-indexed properties (§3). `keys` is the own-key order,
`props` the property map, `extensible` the [[Extensible]] slot. -/
structure OrdinaryObject where
  keys : List PropertyKey
  props : List (PropertyKey × PropertyDescriptor)
  extensible : Bool
  deriving DecidableEq

namespace OrdinaryObject

/-- Modelled from the spec: ordinary `[[GetOwnProperty]]`, a pure lookup that
invokes no user code (its `try_` form never breaks). -/
def getOwn (o : OrdinaryObject) (k : PropertyKey) : Option PropertyDescriptor :=
  (o.props.find? (fun p => p.1 == k)).map (fun p => p.2)

def setProp (o : OrdinaryObject) (k : PropertyKey) (d : PropertyDescriptor) :
    OrdinaryObject :=
  if (o.props.find? (fun p => p.1 == k)).isSome then
    { o with props := (k, d) :: o.props.filter (fun p => p.1 != k) }
  else
    { o with keys := o.keys ++ [k], props := (k, d) :: o.props }

def removeProp (o : OrdinaryObject) (k : PropertyKey) : OrdinaryObject :=
  { o with keys := o.keys.filter (fun p => p != k),
           props := o.props.filter (fun p => p.1 != k) }

end OrdinaryObject

/-- Modelled from the spec: the backing object made by `create_backing_object`
on first non-integer key assignment — empty and extensible (§3 Lifecycle). -/
def emptyBackingObject : OrdinaryObject :=
  { keys := [], props := [], extensible := true }

/-- The `ArrayHeapData` record: the optional backing object plus the elements
vector (`data.rs`, used throughout `array.rs`). -/
structure ArrayHeapData where
  object_index : Option OrdinaryObject
  elements : SealableElementsVector
  deriving DecidableEq

/-- The engine's `TryResult<T>`: `Continue` when the operation completed
without user code, `Break` when a user callback would be required. -/
inductive TryResult (α : Type) where
  | Continue (a : α)
  | Break
  deriving DecidableEq

def TryResult.isContinue {α : Type} : TryResult α → Bool
  | .Continue _ => true
  | .Break => false

/-- Source `Array::try_get_own_property` (`array.rs` lines 288–353): integer keys in
`ARRAY_INDEX_RANGE` are served from the elements vector (`none` past `length`
or on a hole), `"length"` yields the synthetic length descriptor, and all
other keys go to the backing object when it exists. Every branch returns
`Continue`. -/
def try_get_own_property (a : ArrayHeapData) (property_key : PropertyKey) :
    TryResult (Option PropertyDescriptor) :=
  match property_key with
  | .Integer idx =>
    if ¬ inArrayIndexRange idx then
      match a.object_index with
      | some backing_object => .Continue (backing_object.getOwn property_key)
      | none => .Continue none
    else
      let index := idx.toNat
      let length := a.elements.len
      if index ≥ length then
        .Continue none
      else
        let value := a.elements.getValue index
        let descriptor := a.elements.getDescriptor index
        if value = none ∧ descriptor = none then
          .Continue none
        else
          .Continue (some (ElementDescriptor.to_property_descriptor descriptor value))
  | _ =>
    if property_key = lengthKey then
      .Continue (some
        { value := some (Value.SmallInt a.elements.len),
          writable := some a.elements.len_writable,
          get := none, set := none,
          configurable := some false, enumerable := some false })
    else
      match a.object_index with
      | some backing_object => .Continue (backing_object.getOwn property_key)
      | none => .Continue none

/-- Source `Array::try_own_property_keys` (`array.rs` lines 677–701): walk the live
element slice in index order pushing a key for every slot whose *value* is
present, then append the backing object's own keys. -/
def try_own_property_keys (a : ArrayHeapData) : TryResult (List PropertyKey) :=
  let backing_keys : List PropertyKey :=
    match a.object_index with
    | some backing_object => backing_object.keys
    | none => []
  let keys := (List.range a.elements.len).filterMap
    (fun index => if (a.elements.getValue index).isSome then
      some (PropertyKey.Integer index) else none)
  .Continue (keys ++ backing_keys)

/-- The spec's own words for `[[OwnPropertyKeys]]` (§4.4, claim C1): the
integer-index keys of all *non-hole* slots — a slot being a hole only when
both its value is absent and it has no descriptor — in ascending index order,
followed by the backing object's own keys. -/
def spec_own_property_keys (a : ArrayHeapData) : List PropertyKey :=
  let backing_keys : List PropertyKey :=
    match a.object_index with
    | some backing_object => backing_object.keys
    | none => []
  ((List.range a.elements.len).filter
      (fun i => !(decide (a.elements.isHole i)))).map
    (fun i => PropertyKey.Integer i) ++ backing_keys

/-- Modelled from the spec: ordinary `[[Delete]]` on the backing object — a
configurable own property is removed (true), a non-configurable one refuses
(false), an absent one returns true. -/
def OrdinaryObject.delete (o : OrdinaryObject) (k : PropertyKey) :
    OrdinaryObject × Bool :=
  match o.getOwn k with
  | none => (o, true)
  | some d =>
    if d.configurable = some true then (o.removeProp k, true)
    else (o, false)

/-- Source `Array::try_delete` (`array.rs` lines 626–675): `"length"` is a true
no-op; an in-range index past `length` returns true; otherwise the slot's
descriptor is consulted — non-configurable refuses, else the descriptor is
removed and the value slot cleared. Out-of-range keys go to the backing
object. -/
def try_delete (a : ArrayHeapData) (property_key : PropertyKey) :
    TryResult (ArrayHeapData × Bool) :=
  if property_key = lengthKey then
    .Continue (a, true)
  else
    match property_key with
    | .Integer idx =>
      if ¬ inArrayIndexRange idx then
        match a.object_index with
        | some backing_object =>
          let r := backing_object.delete property_key
          .Continue ({ a with object_index := some r.1 }, r.2)
        | none => .Continue (a, true)
      else
        let index := idx.toNat
        if index ≥ a.elements.len then
          .Continue (a, true)
        else
          match a.elements.getDescriptor index with
          | some descriptor =>
            if !descriptor.is_configurable then
              .Continue (a, false)
            else
              .Continue
                ({ a with elements :=
                    (a.elements.removeDescriptor index).setValue index none },
                 true)
          | none =>
            .Continue ({ a with elements := a.elements.setValue index none }, true)
    | _ =>
      match a.object_index with
      | some backing_object =>
        let r := backing_object.delete property_key
        .Continue ({ a with object_index := some r.1 }, r.2)
      | none => .Continue (a, true)

/-- The slot-as-property view used by `ordinary_define_own_property_for_array`:
a slot with a value but no side-table entry acts as a default
`WritableEnumerableConfigurableData` descriptor. -/
def currentSlotDescriptor (e : SealableElementsVector) (index : Nat) :
    Option ElementDescriptor :=
  let d := e.getDescriptor index
  if (e.getValue index).isSome ∧ d = none then some ElementDescriptor.wecData
  else d

def currentWritable (c : Option ElementDescriptor) : Option Bool :=
  match c with
  | none => some true
  | some c => c.is_writable

def currentEnumerable (c : Option ElementDescriptor) : Bool :=
  match c with
  | none => true
  | some c => c.is_enumerable

def currentConfigurable (c : Option ElementDescriptor) : Bool :=
  match c with
  | none => true
  | some c => c.is_configurable

def currentIsData (c : Option ElementDescriptor) : Bool :=
  match c with
  | none => false
  | some c => c.is_data_descriptor

def currentIsAccessor (c : Option ElementDescriptor) : Bool :=
  match c with
  | none => false
  | some c => c.is_accessor_descriptor

/-- Step 5 of ValidateAndApplyPropertyDescriptor (`array.rs` lines 880–937):
a non-configurable current property refuses the listed field changes. -/
def odopfa_refused (c : Option ElementDescriptor) (current_value : Option Value)
    (descriptor : PropertyDescriptor) : Bool :=
  !currentConfigurable c &&
    (descriptor.configurable == some true
      || (match descriptor.enumerable with
          | some en => en != currentEnumerable c
          | none => false)
      || (!descriptor.is_generic_descriptor &&
            descriptor.is_accessor_descriptor != currentIsAccessor c)
      || (if currentIsAccessor c then
            (match descriptor.get with
             | some g => c.bind (fun q => q.getter) != some g
             | none => false)
            || (match descriptor.set with
                | some s => c.bind (fun q => q.setter) != some s
                | none => false)
          else if currentWritable c = some false then
            descriptor.writable == some true
            || (match descriptor.value with
                | some v => !same_value v (current_value.getD Value.Undefined)
                | none => false)
          else false))

/-- Step 2 of ValidateAndApplyPropertyDescriptor (`array.rs` lines 806–862):
define into a hole — refused when the vector is not extensible, else the slot
(and, for non-default attributes, a side-table entry) is created. -/
def odopfa_define_hole (e : SealableElementsVector) (index : Nat)
    (descriptor : PropertyDescriptor) : SealableElementsVector × Bool :=
  if e.writable = false then (e, false)
  else if descriptor.is_accessor_descriptor then
    match ElementDescriptor.from_property_descriptor descriptor with
    | some d => (e.setDescriptor index d, true)
    | none => (e, true)
  else
    let e1 := e.setValue index (some (descriptor.value.getD Value.Undefined))
    match ElementDescriptor.from_property_descriptor descriptor with
    | some d => (e1.setDescriptor index d, true)
    | none => (e1, true)

/-- Step a of ValidateAndApplyPropertyDescriptor (`array.rs` lines 938–975):
replace a data property by an accessor property. -/
def odopfa_apply_accessor (e : SealableElementsVector) (index : Nat)
    (c : Option ElementDescriptor) (descriptor : PropertyDescriptor) :
    SealableElementsVector × Bool :=
  ((e.setValue index none).setDescriptor index
    { getter := descriptor.get, setter := descriptor.set, writable := none,
      enumerable := descriptor.enumerable.getD (currentEnumerable c),
      configurable := descriptor.configurable.getD (currentConfigurable c) },
   true)

/-- Step b of ValidateAndApplyPropertyDescriptor (`array.rs` lines 976–1011):
replace an accessor property by a data property. -/
def odopfa_apply_data (e : SealableElementsVector) (index : Nat)
    (c : Option ElementDescriptor) (descriptor : PropertyDescriptor) :
    SealableElementsVector × Bool :=
  let e1 :=
    match ElementDescriptor.new_with_wec (descriptor.writable.getD false)
        (descriptor.enumerable.getD (currentEnumerable c))
        (descriptor.configurable.getD (currentConfigurable c)) with
    | some d => e.setDescriptor index d
    | none => e.removeDescriptor index
  (e1.setValue index (some (descriptor.value.getD Value.Undefined)), true)

/-- Step c of ValidateAndApplyPropertyDescriptor (`array.rs` lines 1012–1041):
merge each present field of the incoming descriptor into the current
property. -/
def odopfa_apply_merge (e : SealableElementsVector) (index : Nat)
    (c : Option ElementDescriptor) (current_value : Option Value)
    (descriptor : PropertyDescriptor) : SealableElementsVector × Bool :=
  let merged : PropertyDescriptor :=
    { descriptor with
      writable := descriptor.writable.or (currentWritable c),
      get := descriptor.get.or (c.bind (fun q => q.getter)),
      set := descriptor.set.or (c.bind (fun q => q.setter)),
      enumerable := some (descriptor.enumerable.getD (currentEnumerable c)),
      configurable := some (descriptor.configurable.getD (currentConfigurable c)) }
  let e1 := e.setValue index (descriptor.value.or current_value)
  match ElementDescriptor.from_property_descriptor merged with
  | some d => (e1.setDescriptor index d, true)
  | none => (e1.removeDescriptor index, true)

/-- Source `ordinary_define_own_property_for_array` (`array.rs` lines 782–1044):
ValidateAndApplyPropertyDescriptor against an existing element slot. Returns
the updated vector and the success flag. -/
def ordinary_define_own_property_for_array (e : SealableElementsVector)
    (index : Nat) (descriptor : PropertyDescriptor) :
    SealableElementsVector × Bool :=
  let current_value := e.getValue index
  let current_descriptor := currentSlotDescriptor e index
  if current_descriptor = none ∧ current_value = none then
    -- 2. If current is undefined (the slot is a hole):
    odopfa_define_hole e index descriptor
  -- 4. If Desc does not have any fields, return true.
  else if !descriptor.has_fields then (e, true)
  -- 5. If current.[[Configurable]] is false, validate the incoming fields.
  else if odopfa_refused current_descriptor current_value descriptor then (e, false)
  else if currentIsData current_descriptor && descriptor.is_accessor_descriptor then
    odopfa_apply_accessor e index current_descriptor descriptor
  else if currentIsAccessor current_descriptor && descriptor.is_data_descriptor then
    odopfa_apply_data e index current_descriptor descriptor
  else
    odopfa_apply_merge e index current_descriptor current_value descriptor

/-- Modelled from the spec: shrinking phase of `ArraySetLength` (§4.4) —
delete indices `[new_len, old_len)` in descending order; a non-configurable
slot stops the shrink there (the length ends at that index + 1) and the
operation reports failure. `steps` is `old_len - new_len`. -/
def shrinkElements : Nat → SealableElementsVector → SealableElementsVector × Bool
  | 0, e => (e, true)
  | steps + 1, e =>
    let i := e.len - 1
    match e.getDescriptor i with
    | some d =>
      if !d.configurable then (e, false)
      else shrinkElements steps
        { e with values := e.values.dropLast,
                 descriptors := e.descriptors.filter (fun p => p.1 != i) }
    | none =>
      shrinkElements steps { e with values := e.values.dropLast }

/-- Modelled from the spec: `array_try_set_length` (ArraySetLength, §4.4;
`abstract_operations.rs` is not in the sources). The value, when present,
must already be a small integer in `[0, 2^32 - 1]` — anything needing user
code to coerce breaks to the slow path. Because `length` is non-configurable
and the validate step runs verbatim, a non-writable length refuses any change
of value or a `writable: true` request; finally `len_writable` is set from
`Desc.writable` when provided. -/
def array_try_set_length (e : SealableElementsVector)
    (descriptor : PropertyDescriptor) : TryResult (SealableElementsVector × Bool) :=
  match descriptor.value with
  | none =>
    match descriptor.writable with
    | some w =>
      if w = true ∧ e.len_writable = false then .Continue (e, false)
      else .Continue ({ e with len_writable := w }, true)
    | none => .Continue (e, true)
  | some (Value.SmallInt n) =>
    if 0 ≤ n ∧ n ≤ 2 ^ 32 - 1 then
      let new_len := n.toNat
      if e.len_writable = false then
        if new_len = e.len then .Continue (e, true) else .Continue (e, false)
      else
        let r :=
          if new_len < e.len then shrinkElements (e.len - new_len) e
          else (e.growTo new_len, true)
        match descriptor.writable with
        | some false => .Continue ({ r.1 with len_writable := false }, r.2)
        | _ => .Continue r
    else .Break
  | some _ => .Break

/-- Modelled from the spec: ordinary `[[DefineOwnProperty]]` on the backing
object — ValidateAndApplyPropertyDescriptor verbatim over its property map
(§4.3; `ordinary.rs` is not in the sources). -/
def ordinary_define_own_property (o : OrdinaryObject) (k : PropertyKey)
    (descriptor : PropertyDescriptor) : OrdinaryObject × Bool :=
  match o.getOwn k with
  | none =>
    if !o.extensible then (o, false)
    else if descriptor.is_accessor_descriptor then
      (o.setProp k
        { value := none, writable := none, get := descriptor.get,
          set := descriptor.set,
          enumerable := some (descriptor.enumerable.getD false),
          configurable := some (descriptor.configurable.getD false) }, true)
    else
      (o.setProp k
        { value := some (descriptor.value.getD Value.Undefined),
          writable := some (descriptor.writable.getD false), get := none,
          set := none,
          enumerable := some (descriptor.enumerable.getD false),
          configurable := some (descriptor.configurable.getD false) }, true)
  | some current =>
    if !descriptor.has_fields then (o, true)
    else
      let current_configurable := current.configurable.getD false
      let refused : Bool :=
        !current_configurable &&
          (descriptor.configurable == some true
            || (match descriptor.enumerable with
                | some en => some en != current.enumerable
                | none => false)
            || (!descriptor.is_generic_descriptor &&
                  descriptor.is_accessor_descriptor != current.is_accessor_descriptor)
            || (if current.is_accessor_descriptor then
                  (match descriptor.get with
                   | some g => current.get != some g
                   | none => false)
                  || (match descriptor.set with
                      | some s => current.set != some s
                      | none => false)
                else if current.writable = some false then
                  descriptor.writable == some true
                  || (match descriptor.value with
                      | some v =>
                        !same_value v (current.value.getD Value.Undefined)
                      | none => false)
                else false))
      if refused then (o, false)
      else if current.is_data_descriptor && descriptor.is_accessor_descriptor then
        (o.setProp k
          { value := none, writable := none, get := descriptor.get,
            set := descriptor.set,
            enumerable := some (descriptor.enumerable.getD
              (current.enumerable.getD false)),
            configurable := some (descriptor.configurable.getD
              current_configurable) }, true)
      else if current.is_accessor_descriptor && descriptor.is_data_descriptor then
        (o.setProp k
          { value := some (descriptor.value.getD Value.Undefined),
            writable := some (descriptor.writable.getD false), get := none,
            set := none,
            enumerable := some (descriptor.enumerable.getD
              (current.enumerable.getD false)),
            configurable := some (descriptor.configurable.getD
              current_configurable) }, true)
      else
        (o.setProp k
          { value := descriptor.value.or current.value,
            writable := descriptor.writable.or current.writable,
            get := descriptor.get.or current.get,
            set := descriptor.set.or current.set,
            enumerable := some (descriptor.enumerable.getD
              (current.enumerable.getD false)),
            configurable := some (descriptor.configurable.getD
              current_configurable) }, true)

/-- Source `Array::try_define_own_property` (`array.rs` lines 355–437): `"length"`
runs ArraySetLength; an in-range integer index either refuses (index past a
non-writable length), grows the vector filling `[length, index)` with holes
and pushes the new slot at `index` (length becomes `index + 1`), or validates
against the existing slot; any other key is forwarded to the backing object,
materialising it on demand. -/
def try_define_own_property (a : ArrayHeapData) (property_key : PropertyKey)
    (property_descriptor : PropertyDescriptor) :
    TryResult (ArrayHeapData × Bool) :=
  if property_key = lengthKey then
    match array_try_set_length a.elements property_descriptor with
    | .Continue r => .Continue ({ a with elements := r.1 }, r.2)
    | .Break => .Break
  else
    match property_key with
    | .Integer idx =>
      if ¬ inArrayIndexRange idx then
        let backing_object := a.object_index.getD emptyBackingObject
        let r := ordinary_define_own_property backing_object property_key
          property_descriptor
        .Continue ({ a with object_index := some r.1 }, r.2)
      else
        let index := idx.toNat
        let length := a.elements.len
        let length_writable := a.elements.len_writable
        if index ≥ length then
          -- g. If index ≥ length and lengthDesc.[[Writable]] is false, return false.
          if length_writable = false then .Continue (a, false)
          else
            let value := property_descriptor.value
            let element_descriptor :=
              ElementDescriptor.from_property_descriptor property_descriptor
            let e := (a.elements.growTo index).push value element_descriptor
            .Continue ({ a with elements := e }, true)
        else
          let r := ordinary_define_own_property_for_array a.elements index
            property_descriptor
          .Continue ({ a with elements := r.1 }, r.2)
    | _ =>
      let backing_object := a.object_index.getD emptyBackingObject
      let r := ordinary_define_own_property backing_object property_key
        property_descriptor
      .Continue ({ a with object_index := some r.1 }, r.2)

/-- Run `try_define_own_property`, keeping the state (`Break` cannot occur on
integer keys). -/
def defineStep (a : ArrayHeapData) (k : PropertyKey) (d : PropertyDescriptor) :
    ArrayHeapData × Bool :=
  match try_define_own_property a k d with
  | .Continue r => r
  | .Break => (a, false)

/-- Apply a sequence of integer-index defines in order. -/
def applyDefines (a : ArrayHeapData) : List (Int × PropertyDescriptor) → ArrayHeapData
  | [] => a
  | (i, d) :: rest => applyDefines (defineStep a (.Integer i) d).1 rest

/-- Script-visible exceptions (`ExceptionType` plus a thrown value). -/
inductive JsError where
  | TypeErr
  | SyntaxErr
  | RangeErr
  | Thrown (v : Value)
  deriving DecidableEq

/-- Modelled from the spec: `ToBoolean` (`type_conversion.rs` is not in the
sources). -/
def to_boolean (v : Value) : Bool :=
  match v with
  | .Undefined => false
  | .Null => false
  | .Boolean b => b
  | .SmallInt i => i != 0
  | .Str s => s != ""
  | .Obj _ => true

def isObject (v : Value) : Bool :=
  match v with
  | .Obj _ => true
  | _ => false

def doneKey : PropertyKey := PropertyKey.Str ("done")

def valueKey : PropertyKey := PropertyKey.Str ("value")

/-- An `IteratorRecord`: the iterator object and its cached `next` method
(`GenericIterator` variant of `VmIterator`). -/
structure GenericIteratorRecord where
  iterator : Value
  next_method : Value
  deriving DecidableEq

/-- The engine's interface to user code for the generic iterator path:
`call_function` (invoking `next`) and `get` (reading `done` / `value`), both
of which may throw. -/
structure IterHost where
  callNext : Value → Value → Except JsError Value
  getProp : Value → PropertyKey → Except JsError Value

/-- Source `VmIterator::step_value`, `GenericIterator` arm (`iterator.rs` lines
69–120): call `next_method` with the iterator as `this`; a non-object result
is a TypeError; read `done` and coerce with `ToBoolean`; when done yield
`none`, otherwise read and yield `value`. The iterator and next method are
rooted across the user-code calls and restored unchanged into the record. -/
def generic_step_value (h : IterHost) (it : GenericIteratorRecord) :
    Except JsError (GenericIteratorRecord × Option Value) :=
  match h.callNext it.next_method it.iterator with
  | .error e => .error e
  | .ok result =>
    if !isObject result then .error JsError.TypeErr
    else
      match h.getProp result doneKey with
      | .error e => .error e
      | .ok done =>
        if to_boolean done then .ok (it, none)
        else
          match h.getProp result valueKey with
          | .error e => .error e
          | .ok value => .ok (it, some value)

/-- Source `ArrayValuesIterator::next` (`iterator.rs` lines 304–336) against a fixed
array heap record: the length is re-read on every step and iteration stops as
soon as the index reaches it; a slot with a present value is yielded straight
from element storage, otherwise a full `[[Get]]` runs — `slowGet` stands for
that call, which may invoke a getter. Returns the yielded value and the
updated index. -/
def array_values_next (a : ArrayHeapData) (slowGet : Nat → Value) (index : Nat) :
    Option Value × Nat :=
  let len := a.elements.len
  if index ≥ len then (none, index)
  else
    match a.elements.getValue index with
    | some element_value => (some element_value, index + 1)
    | none => (some (slowGet index), index + 1)

/-- Iterate `array_values_next` for `k` steps from index 0, collecting the
step results; the state is the iterator's index. -/
def array_values_steps (a : ArrayHeapData) (slowGet : Nat → Value) :
    Nat → Nat × List (Option Value)
  | 0 => (0, [])
  | k + 1 =>
    let r := array_values_steps a slowGet k
    let s := array_values_next a slowGet r.1
    (s.2, r.2 ++ [s.1])

/-- An object record for the `for`-`in` walk: its own keys in own-key order,
its property map, and its prototype (an index into the heap). `getOwn` and
the key list model `internal_get_own_property` / `internal_own_property_keys`
of an ordinary object. -/
structure ObjData where
  keys : List PropertyKey
  props : List (PropertyKey × PropertyDescriptor)
  proto : Option Nat
  deriving DecidableEq

def ObjData.getOwn (o : ObjData) (k : PropertyKey) : Option PropertyDescriptor :=
  (o.props.find? (fun p => p.1 == k)).map (fun p => p.2)

/-- The `ObjectPropertiesIterator` state (`iterator.rs` lines 215–231). -/
structure ObjectPropertiesIterator where
  object : Nat
  object_was_visited : Bool
  visited_keys : List PropertyKey
  remaining_keys : List PropertyKey
  deriving DecidableEq

def ObjectPropertiesIterator.new (object : Nat) : ObjectPropertiesIterator :=
  { object := object, object_was_visited := false,
    visited_keys := [], remaining_keys := [] }

/-- The inner `while let Some(r) = self.remaining_keys.pop_front()` loop of
`ObjectPropertiesIterator::next`: skip keys already visited; a key with an
own descriptor is recorded as visited and yielded when enumerable. Returns
the grown visited list and, on a yield, the key with the rest of the queue. -/
def drainKeys (o : ObjData) (visited : List PropertyKey) :
    List PropertyKey → List PropertyKey × Option (PropertyKey × List PropertyKey)
  | [] => (visited, none)
  | r :: rest =>
    if r ∈ visited then drainKeys o visited rest
    else
      match o.getOwn r with
      | some desc =>
        let visited1 := visited ++ [r]
        if desc.enumerable = some true then (visited1, some (r, rest))
        else drainKeys o visited1 rest
      | none => drainKeys o visited rest

/-- The key-loading prologue of `ObjectPropertiesIterator::next`: when the
current object has not been visited yet, enqueue its own keys with symbol
keys filtered out. -/
def opiLoad (heap : Nat → ObjData) (s : ObjectPropertiesIterator) :
    ObjectPropertiesIterator :=
  if !s.object_was_visited then
    { s with
      remaining_keys := s.remaining_keys ++
        (heap s.object).keys.filter
          (fun k => !(match k with | .Symbol _ => true | _ => false)),
      object_was_visited := true }
  else s

/-- Source `ObjectPropertiesIterator::next` (`iterator.rs` lines 233–287) over a
static heap: fetch the current object's own keys (symbols filtered out) when
not yet visited, drain the queue, and on exhaustion ascend to the prototype.
`fuel` bounds the prototype ascent (the source relies on chains being
finite); `none` means fuel ran out. -/
def opi_next (heap : Nat → ObjData) :
    Nat → ObjectPropertiesIterator → Option (Option PropertyKey × ObjectPropertiesIterator)
  | 0, _ => none
  | fuel + 1, s =>
    match drainKeys (heap s.object) (opiLoad heap s).visited_keys
        (opiLoad heap s).remaining_keys with
    | (v2, some (k, rest)) =>
      some (some k,
        { opiLoad heap s with visited_keys := v2, remaining_keys := rest })
    | (v2, none) =>
      match (heap s.object).proto with
      | some p =>
        opi_next heap fuel
          { opiLoad heap s with visited_keys := v2, remaining_keys := [],
                                object := p, object_was_visited := false }
      | none =>
        some (none,
          { opiLoad heap s with visited_keys := v2, remaining_keys := [] })

/-- Run the `for`-`in` iterator: collect up to `n` yielded keys, stopping on
exhaustion or when a step's fuel runs out. -/
def opi_run (heap : Nat → ObjData) (stepFuel : Nat) :
    Nat → ObjectPropertiesIterator → List PropertyKey
  | 0, _ => []
  | n + 1, s =>
    match opi_next heap stepFuel s with
    | some (some k, s1) => k :: opi_run heap stepFuel n s1
    | _ => []

/-- Modelled from the spec: an environment record layer (§3; the environment
types are not in the sources) — its kind and its bindings with their values.
`hasBinding` is the record's HasBinding method. -/
inductive EnvKind where
  | declarative
  | objectEnv
  | functionEnv
  | globalEnv
  deriving DecidableEq

structure EnvLayer where
  kind : EnvKind
  bindings : List (String × Value)
  deriving DecidableEq

def EnvLayer.hasBinding (l : EnvLayer) (n : String) : Bool :=
  l.bindings.any (fun p => p.1 == n)

/-- The environment shape `eval_declaration_instantiation` sees: the eval's
fresh declarative `lexEnv`, the layers strictly between it and `varEnv`
(innermost first — the `[[OuterEnv]]` walk order), and `varEnv` itself.
`globalLexicalNames` are the global environment's lexical declarations, used
by the `HasLexicalDeclaration` check when `varEnv` is the global. -/
structure EvalScope where
  lexEnv : EnvLayer
  middle : List EnvLayer
  varEnv : EnvLayer
  varEnvIsGlobal : Bool
  globalLexicalNames : List String
  deriving DecidableEq

/-- The `while this_env != var_env` walk of `eval_declaration_instantiation`
(`global_object.rs` lines 387–447): at every layer that is not an Object
Environment Record, a var name that the layer already binds is a conflict;
the first conflicting name is reported. -/
def hoistingConflictCheck (varNames : List String) :
    List EnvLayer → Option String
  | [] => none
  | l :: rest =>
    if l.kind ≠ EnvKind.objectEnv then
      match varNames.find? (fun n => l.hasBinding n) with
      | some n => some n
      | none => hoistingConflictCheck varNames rest
    else hoistingConflictCheck varNames rest

/-- Step 3.a of `eval_declaration_instantiation`: when `varEnv` is the global
environment, a var name that collides with a global lexical declaration is a
conflict. -/
def globalLexicalConflict (s : EvalScope) (varNames : List String) : Option String :=
  if s.varEnvIsGlobal then
    varNames.find? (fun n => s.globalLexicalNames.contains n)
  else none

/-- Steps 16–18 of `eval_declaration_instantiation`, abbreviated to their
effect on the environment shape: lexical declarations pre-create bindings in
`lexEnv`; function declarations create-or-overwrite bindings in `varEnv`; var
names not yet bound in `varEnv` are created initialised to undefined. The
middle layers are never touched. -/
def instantiateBindings (s : EvalScope) (varNames : List String)
    (lexNames : List String) (funcs : List (String × Value)) : EvalScope :=
  let varEnv1 := funcs.foldl
    (fun (env : EnvLayer) f =>
      if env.hasBinding f.1 then
        { env with bindings :=
            env.bindings.map (fun p => if p.1 == f.1 then (p.1, f.2) else p) }
      else { env with bindings := env.bindings ++ [f] })
    s.varEnv
  let varEnv2 := varNames.foldl
    (fun (env : EnvLayer) n =>
      if env.hasBinding n then env
      else { env with bindings := env.bindings ++ [(n, Value.Undefined)] })
    varEnv1
  { s with
    lexEnv := { s.lexEnv with bindings :=
      s.lexEnv.bindings ++ lexNames.map (fun n => (n, Value.Undefined)) },
    varEnv := varEnv2 }

/-- Source `eval_declaration_instantiation` (`global_object.rs` lines 387–716) over
the environment shape: in the non-strict case the global-lexical check and
the outward walk from `lexEnv` run first and throw SyntaxError on a conflict;
only after both pass are any bindings created. -/
def eval_declaration_instantiation (strict_eval : Bool) (s : EvalScope)
    (varNames : List String) (lexNames : List String)
    (funcs : List (String × Value)) : Except JsError EvalScope :=
  if strict_eval = false then
    match globalLexicalConflict s varNames with
    | some _ => .error JsError.SyntaxErr
    | none =>
      match hoistingConflictCheck varNames (s.lexEnv :: s.middle) with
      | some _ => .error JsError.SyntaxErr
      | none => .ok (instantiateBindings s varNames lexNames funcs)
  else .ok (instantiateBindings s varNames lexNames funcs)

/-- A computation that either panics (an implementation-invariant violation
terminating the process) or completes with a result. -/
inductive PanicOr (α : Type) where
  | panicked
  | ok (a : α)
  deriving DecidableEq

/-- Source `perform_eval` (`global_object.rs` lines 150–163): the entry assertion
`assert!(direct || !strict_caller)` runs first; then a non-string argument is
returned unchanged, and a string is handed to the parse/instantiate/execute
pipeline, abstracted here as `rest`. -/
def perform_eval (x : Value) (direct strict_caller : Bool)
    (rest : Value → Except JsError Value) : PanicOr (Except JsError Value) :=
  if !(direct || !strict_caller) then PanicOr.panicked
  else
    match x with
    | Value.Str s => PanicOr.ok (rest (Value.Str s))
    | v => PanicOr.ok (Except.ok v)

/-- The backing object's own keys, in its own-key order (empty when the
backing object has not been materialised). -/
def backingKeysOf (a : ArrayHeapData) : List PropertyKey :=
  match a.object_index with
  | some backing_object => backing_object.keys
  | none => []

/-- The indices below `length` whose slot holds a present value, ascending. -/
def presentIdxs (a : ArrayHeapData) : List Nat :=
  (List.range a.elements.len).filter (fun i => (a.elements.getValue i).isSome)

/-!
## Helper lemmas

Small facts about the element-storage operations, shared by the claim
theorems below.
-/

theorem find?_filter_ne {α : Type} (ds : List (Nat × α)) (i j : Nat) (h : ¬ j = i) :
    (ds.filter (fun p => p.1 != i)).find? (fun p => p.1 == j) =
      ds.find? (fun p => p.1 == j) := by
  induction ds with
  | nil => rfl
  | cons p rest ih =>
    by_cases hpi : p.1 = i
    · have hij : (i == j) = false := by simp; omega
      simp [List.filter_cons, hpi, List.find?_cons, hij, ih]
    · by_cases hpj : p.1 = j
      · have h1 : (p.1 == j) = true := by simp [hpj]
        have hne : (p.1 != i) = true := by simp [hpi]
        simp [List.filter_cons, hne, List.find?_cons, h1]
      · have h1 : (p.1 == j) = false := by simp [hpj]
        simp [List.filter_cons, hpi, List.find?_cons, h1, ih]

namespace SealableElementsVector

@[simp] theorem len_setValue (e : SealableElementsVector) (i : Nat) (v : Option Value) :
    (e.setValue i v).len = e.len := by
  simp [setValue, len]

@[simp] theorem len_setDescriptor (e : SealableElementsVector) (i : Nat)
    (d : ElementDescriptor) : (e.setDescriptor i d).len = e.len := rfl

@[simp] theorem len_removeDescriptor (e : SealableElementsVector) (i : Nat) :
    (e.removeDescriptor i).len = e.len := rfl

@[simp] theorem len_writable_setValue (e : SealableElementsVector) (i : Nat)
    (v : Option Value) : (e.setValue i v).len_writable = e.len_writable := rfl

@[simp] theorem len_writable_setDescriptor (e : SealableElementsVector) (i : Nat)
    (d : ElementDescriptor) : (e.setDescriptor i d).len_writable = e.len_writable := rfl

@[simp] theorem len_writable_removeDescriptor (e : SealableElementsVector) (i : Nat) :
    (e.removeDescriptor i).len_writable = e.len_writable := rfl

@[simp] theorem len_writable_push (e : SealableElementsVector) (v : Option Value)
    (d : Option ElementDescriptor) : (e.push v d).len_writable = e.len_writable := by
  unfold push; cases d <;> rfl

@[simp] theorem len_writable_growTo (e : SealableElementsVector) (n : Nat) :
    (e.growTo n).len_writable = e.len_writable := rfl

@[simp] theorem values_setDescriptor (e : SealableElementsVector) (i : Nat)
    (d : ElementDescriptor) : (e.setDescriptor i d).values = e.values := rfl

@[simp] theorem values_removeDescriptor (e : SealableElementsVector) (i : Nat) :
    (e.removeDescriptor i).values = e.values := rfl

@[simp] theorem getValue_setDescriptor (e : SealableElementsVector) (i j : Nat)
    (d : ElementDescriptor) : (e.setDescriptor i d).getValue j = e.getValue j := rfl

@[simp] theorem getDescriptor_setValue (e : SealableElementsVector) (i j : Nat)
    (v : Option Value) : (e.setValue i v).getDescriptor j = e.getDescriptor j := rfl

@[simp] theorem getValue_removeDescriptor (e : SealableElementsVector) (i j : Nat) :
    (e.removeDescriptor i).getValue j = e.getValue j := rfl

theorem getValue_setValue_self (e : SealableElementsVector) (i : Nat)
    (v : Option Value) (h : i < e.len) : (e.setValue i v).getValue i = v := by
  unfold len at h
  simp [setValue, getValue, List.getD, List.getElem?_set_self h]

theorem getValue_setValue_ne (e : SealableElementsVector) (i j : Nat)
    (v : Option Value) (h : ¬ j = i) : (e.setValue i v).getValue j = e.getValue j := by
  have : i ≠ j := fun hc => h hc.symm
  simp [setValue, getValue, List.getD, List.getElem?_set_ne, this]

theorem getDescriptor_setDescriptor_self (e : SealableElementsVector) (i : Nat)
    (d : ElementDescriptor) : (e.setDescriptor i d).getDescriptor i = some d := by
  simp [setDescriptor, getDescriptor, List.find?_cons]

theorem getDescriptor_setDescriptor_ne (e : SealableElementsVector) (i j : Nat)
    (d : ElementDescriptor) (h : ¬ j = i) :
    (e.setDescriptor i d).getDescriptor j = e.getDescriptor j := by
  have hne : (i == j) = false := by simp; omega
  simp [setDescriptor, getDescriptor, List.find?_cons, hne, find?_filter_ne _ i j h]

theorem getDescriptor_removeDescriptor_self (e : SealableElementsVector) (i : Nat) :
    (e.removeDescriptor i).getDescriptor i = none := by
  simp only [removeDescriptor, getDescriptor, Option.map_eq_none']
  rw [List.find?_eq_none]
  intro p hp
  simp only [List.mem_filter] at hp
  simpa using hp.2

theorem getDescriptor_removeDescriptor_ne (e : SealableElementsVector) (i j : Nat)
    (h : ¬ j = i) : (e.removeDescriptor i).getDescriptor j = e.getDescriptor j := by
  simp [removeDescriptor, getDescriptor, find?_filter_ne _ i j h]

theorem filter_eq_of_getDescriptor_none (e : SealableElementsVector) (i : Nat)
    (h : e.getDescriptor i = none) :
    e.descriptors.filter (fun p => p.1 != i) = e.descriptors := by
  rw [List.filter_eq_self]
  intro p hp
  have h2 : e.descriptors.find? (fun q => q.1 == i) = none := by
    unfold getDescriptor at h
    cases hf : e.descriptors.find? (fun q => q.1 == i) with
    | none => rfl
    | some q => rw [hf] at h; simp at h
  have h3 := List.find?_eq_none.mp h2 p hp
  simpa using h3

end SealableElementsVector

theorem filterMap_ite_eq_map_filter {α β : Type} (l : List α) (p : α → Bool)
    (g : α → β) :
    l.filterMap (fun i => if p i then some (g i) else none) = (l.filter p).map g := by
  induction l with
  | nil => rfl
  | cons a l ih =>
    by_cases h : p a <;> simp [List.filterMap_cons, List.filter_cons, h, ih]

theorem hoistingConflictCheck_isSome (varNames : List String)
    (layers : List EnvLayer)
    (hconf : ∃ l ∈ layers, l.kind ≠ EnvKind.objectEnv ∧
      ∃ n ∈ varNames, l.hasBinding n = true) :
    (hoistingConflictCheck varNames layers).isSome = true := by
  induction layers with
  | nil => simp at hconf
  | cons l rest ih =>
    obtain ⟨l2, hl2, hk, n, hn, hb⟩ := hconf
    unfold hoistingConflictCheck
    rcases List.mem_cons.mp hl2 with rfl | hmem
    · rw [if_pos hk]
      have hfind : (varNames.find? (fun m => l2.hasBinding m)).isSome = true :=
        List.find?_isSome.mpr ⟨n, hn, hb⟩
      cases hf : varNames.find? (fun m => l2.hasBinding m) with
      | none => rw [hf] at hfind; simp at hfind
      | some m => simp
    · have hrest := ih ⟨l2, hmem, hk, n, hn, hb⟩
      by_cases hkl : l.kind ≠ EnvKind.objectEnv
      · rw [if_pos hkl]
        cases hf : varNames.find? (fun m => l.hasBinding m) with
        | none => simpa [hf] using hrest
        | some m => simp
      · rw [if_neg hkl]; exact hrest

theorem drainKeys_visited_sub (o : ObjData) (rem : List PropertyKey) :
    ∀ visited : List PropertyKey, ∀ k ∈ visited, k ∈ (drainKeys o visited rem).1 := by
  induction rem with
  | nil => intro visited k hk; simpa [drainKeys] using hk
  | cons r rest ih =>
    intro visited k hk
    unfold drainKeys
    by_cases hv : r ∈ visited
    · rw [if_pos hv]; exact ih visited k hk
    · rw [if_neg hv]
      cases ho : o.getOwn r with
      | some desc =>
        by_cases he : desc.enumerable = some true
        · simp only [he, if_pos]
          exact List.mem_append_left _ hk
        · simp only [he, if_neg, ite_false]
          exact ih _ k (List.mem_append_left _ hk)
      | none => exact ih visited k hk

theorem drainKeys_yield (o : ObjData) (rem : List PropertyKey) :
    ∀ (visited : List PropertyKey) (k : PropertyKey) (rest2 : List PropertyKey),
      (drainKeys o visited rem).2 = some (k, rest2) →
      k ∉ visited ∧ k ∈ (drainKeys o visited rem).1 := by
  induction rem with
  | nil => intro visited k rest2 h; simp [drainKeys] at h
  | cons r rest ih =>
    intro visited k rest2 h
    unfold drainKeys at h ⊢
    by_cases hv : r ∈ visited
    · rw [if_pos hv] at h ⊢; exact ih visited k rest2 h
    · rw [if_neg hv] at h ⊢
      cases ho : o.getOwn r with
      | some desc =>
        rw [ho] at h
        dsimp only at h ⊢
        by_cases he : desc.enumerable = some true
        · rw [if_pos he] at h ⊢
          dsimp only at h ⊢
          obtain ⟨rfl, rfl⟩ := Prod.mk.inj (Option.some.inj h)
          exact ⟨hv, by simp⟩
        · rw [if_neg he] at h ⊢
          obtain ⟨hnot, hin⟩ := ih (visited ++ [r]) k rest2 h
          exact ⟨fun hc => hnot (List.mem_append_left _ hc), hin⟩
      | none =>
        rw [ho] at h
        exact ih visited k rest2 h

theorem opiLoad_visited (heap : Nat → ObjData) (s : ObjectPropertiesIterator) :
    (opiLoad heap s).visited_keys = s.visited_keys := by
  unfold opiLoad; split <;> rfl

theorem opi_next_spec (heap : Nat → ObjData) (fuel : Nat) :
    ∀ (s s1 : ObjectPropertiesIterator) (out : Option PropertyKey),
      opi_next heap fuel s = some (out, s1) →
      (∀ k ∈ s.visited_keys, k ∈ s1.visited_keys) ∧
      (∀ k, out = some k → k ∉ s.visited_keys ∧ k ∈ s1.visited_keys) := by
  induction fuel with
  | zero => intro s s1 out h; simp [opi_next] at h
  | succ fuel ih =>
    intro s s1 out h
    have hLv : (opiLoad heap s).visited_keys = s.visited_keys := opiLoad_visited heap s
    unfold opi_next at h
    cases hd : drainKeys (heap s.object) (opiLoad heap s).visited_keys
        (opiLoad heap s).remaining_keys with
    | mk v2 yld =>
      rw [hd] at h
      have hsub : ∀ k ∈ s.visited_keys, k ∈ v2 := by
        intro k hk
        have h5 := drainKeys_visited_sub (heap s.object)
          (opiLoad heap s).remaining_keys (opiLoad heap s).visited_keys k
          (by rw [hLv]; exact hk)
        rw [hd] at h5
        exact h5
      cases yld with
      | some pr =>
        obtain ⟨k0, rest0⟩ := pr
        dsimp only at h
        injection h with h1
        injection h1 with hout hs1
        subst hout
        subst hs1
        refine ⟨fun k hk => hsub k hk, ?_⟩
        intro k hk
        cases Option.some.inj hk
        have hy := drainKeys_yield (heap s.object) (opiLoad heap s).remaining_keys
          (opiLoad heap s).visited_keys k0 rest0 (by rw [hd])
        rw [hd] at hy
        rw [hLv] at hy
        exact ⟨hy.1, hy.2⟩
      | none =>
        cases hp : (heap s.object).proto with
        | some p =>
          rw [hp] at h
          have hrec := ih _ s1 out h
          refine ⟨fun k hk => hrec.1 k (hsub k hk), ?_⟩
          intro k hk
          obtain ⟨hnot, hin⟩ := hrec.2 k hk
          exact ⟨fun hc => hnot (hsub k hc), hin⟩
        | none =>
          rw [hp] at h
          dsimp only at h
          injection h with h1
          injection h1 with hout hs1
          subst hout
          subst hs1
          exact ⟨fun k hk => hsub k hk, fun k hk => Option.noConfusion hk⟩

theorem integer_ne_lengthKey (i : Int) : ¬ (PropertyKey.Integer i = lengthKey) := by
  simp [lengthKey]

namespace SealableElementsVector

theorem growTo_len (e : SealableElementsVector) (n : Nat) (h : e.len ≤ n) :
    (e.growTo n).len = n := by
  unfold growTo len at *
  simp
  omega

theorem growTo_getDescriptor (e : SealableElementsVector) (n j : Nat) :
    (e.growTo n).getDescriptor j = e.getDescriptor j := rfl

theorem growTo_getValue_lt (e : SealableElementsVector) (n j : Nat)
    (hj : j < e.len) : (e.growTo n).getValue j = e.getValue j := by
  unfold growTo getValue len at *
  dsimp only
  rw [List.getD_append _ _ _ _ hj]

theorem growTo_getValue_ge (e : SealableElementsVector) (n j : Nat)
    (hj : e.len ≤ j) : (e.growTo n).getValue j = none := by
  unfold growTo getValue len at *
  dsimp only
  rw [List.getD_append_right _ _ _ _ hj]
  simp [List.getD, List.getElem?_replicate]
  split <;> rfl

theorem push_len (e : SealableElementsVector) (v : Option Value)
    (d : Option ElementDescriptor) : (e.push v d).len = e.len + 1 := by
  unfold push len
  simp

theorem push_getValue_last (e : SealableElementsVector) (v : Option Value)
    (d : Option ElementDescriptor) : (e.push v d).getValue e.len = v := by
  unfold push getValue len
  dsimp only
  rw [List.getD_append_right _ _ _ _ (le_refl e.values.length)]
  simp

theorem push_getValue_lt (e : SealableElementsVector) (v : Option Value)
    (d : Option ElementDescriptor) (j : Nat) (hj : j < e.len) :
    (e.push v d).getValue j = e.getValue j := by
  unfold push getValue len at *
  dsimp only
  rw [List.getD_append _ _ _ _ hj]

theorem push_getDescriptor_ne (e : SealableElementsVector) (v : Option Value)
    (od : Option ElementDescriptor) (j : Nat) (hj : ¬ j = e.len) :
    (e.push v od).getDescriptor j = e.getDescriptor j := by
  cases od with
  | none => rfl
  | some dd =>
    unfold push getDescriptor len at *
    dsimp only
    have hb : (e.values.length == j) = false := by simp; omega
    simp [List.find?_cons, hb]

theorem push_getDescriptor_self (e : SealableElementsVector) (v : Option Value)
    (od : Option ElementDescriptor) (h : e.getDescriptor e.len = none) :
    (e.push v od).getDescriptor e.len = od := by
  cases od with
  | none => exact h
  | some dd =>
    unfold push getDescriptor len
    simp [List.find?_cons]

end SealableElementsVector

theorem tryDefine_ge_not_writable (a : ArrayHeapData) (i : Int)
    (d : PropertyDescriptor) (hr : inArrayIndexRange i)
    (hlen : a.elements.len ≤ i.toNat) (hw : a.elements.len_writable = false) :
    try_define_own_property a (.Integer i) d = .Continue (a, false) := by
  unfold try_define_own_property
  rw [if_neg (integer_ne_lengthKey i)]
  dsimp only
  rw [if_neg (not_not_intro hr), if_pos hlen, if_pos hw]

theorem odopfa_define_hole_preserves (e : SealableElementsVector) (i : Nat)
    (d : PropertyDescriptor) :
    (odopfa_define_hole e i d).1.len_writable = e.len_writable ∧
    (odopfa_define_hole e i d).1.len = e.len := by
  unfold odopfa_define_hole
  repeat' split
  all_goals simp

theorem odopfa_apply_accessor_preserves (e : SealableElementsVector) (i : Nat)
    (c : Option ElementDescriptor) (d : PropertyDescriptor) :
    (odopfa_apply_accessor e i c d).1.len_writable = e.len_writable ∧
    (odopfa_apply_accessor e i c d).1.len = e.len := by
  unfold odopfa_apply_accessor
  simp

theorem odopfa_apply_data_preserves (e : SealableElementsVector) (i : Nat)
    (c : Option ElementDescriptor) (d : PropertyDescriptor) :
    (odopfa_apply_data e i c d).1.len_writable = e.len_writable ∧
    (odopfa_apply_data e i c d).1.len = e.len := by
  unfold odopfa_apply_data
  repeat' split
  all_goals simp

theorem odopfa_apply_merge_preserves (e : SealableElementsVector) (i : Nat)
    (c : Option ElementDescriptor) (v : Option Value) (d : PropertyDescriptor) :
    (odopfa_apply_merge e i c v d).1.len_writable = e.len_writable ∧
    (odopfa_apply_merge e i c v d).1.len = e.len := by
  unfold odopfa_apply_merge
  dsimp only
  generalize ElementDescriptor.from_property_descriptor _ = fd
  cases fd <;> simp

theorem odopfa_preserves (e : SealableElementsVector) (i : Nat)
    (d : PropertyDescriptor) :
    (ordinary_define_own_property_for_array e i d).1.len_writable = e.len_writable ∧
    (ordinary_define_own_property_for_array e i d).1.len = e.len := by
  unfold ordinary_define_own_property_for_array
  dsimp only
  repeat' split
  all_goals first
    | exact odopfa_define_hole_preserves e i d
    | exact odopfa_apply_accessor_preserves e i _ d
    | exact odopfa_apply_data_preserves e i _ d
    | exact odopfa_apply_merge_preserves e i _ _ d
    | simp

theorem tryDefine_integer_preserves (a : ArrayHeapData) (i : Int)
    (d : PropertyDescriptor) :
    ∀ a2 b, try_define_own_property a (.Integer i) d = .Continue (a2, b) →
      a2.elements.len_writable = a.elements.len_writable := by
  intro a2 b h
  unfold try_define_own_property at h
  rw [if_neg (integer_ne_lengthKey i)] at h
  dsimp only at h
  split at h
  · injection h with h1
    injection h1 with h2 h3
    subst h2
    rfl
  · split at h
    · split at h
      · injection h with h1
        injection h1 with h2 h3
        subst h2
        rfl
      · injection h with h1
        injection h1 with h2 h3
        subst h2
        simp
    · injection h with h1
      injection h1 with h2 h3
      subst h2
      exact (odopfa_preserves a.elements i.toNat d).1

theorem defineStep_integer_preserves (a : ArrayHeapData) (i : Int)
    (d : PropertyDescriptor) :
    (defineStep a (.Integer i) d).1.elements.len_writable =
      a.elements.len_writable := by
  unfold defineStep
  cases h : try_define_own_property a (.Integer i) d with
  | Break => rfl
  | Continue r =>
    obtain ⟨a2, b⟩ := r
    exact tryDefine_integer_preserves a i d a2 b h

theorem applyDefines_preserves (ds : List (Int × PropertyDescriptor)) :
    ∀ a : ArrayHeapData,
      (applyDefines a ds).elements.len_writable = a.elements.len_writable := by
  induction ds with
  | nil => intro a; rfl
  | cons p rest ih =>
    intro a
    obtain ⟨i, d⟩ := p
    unfold applyDefines
    rw [ih]
    exact defineStep_integer_preserves a i d

/-!
## Claim theorems
-/

/-- C10: `perform_eval` has the unstated precondition that `strict_caller`
implies `direct`: calling it with `direct = false` and `strict_caller = true`
violates the entry assertion `assert!(direct || !strict_caller)` and panics
instead of returning a completion; every other flag combination proceeds. -/
theorem claim_C10 (x : Value) (rest : Value → Except JsError Value) (d s : Bool) :
    perform_eval x false true rest = PanicOr.panicked ∧
    (perform_eval x d s rest = PanicOr.panicked ↔ (d = false ∧ s = true)) := by
  constructor
  · rfl
  · cases d <;> cases s <;> cases x <;> simp [perform_eval]

/-- C9: `Array::try_get_own_property` always returns `Continue` — Array
`[[GetOwnProperty]]` completes without invoking user code on every key,
including keys serviced by the backing object. -/
theorem claim_C9 (a : ArrayHeapData) (k : PropertyKey) :
    ∃ r, try_get_own_property a k = TryResult.Continue r := by
  cases k <;> simp only [try_get_own_property] <;>
    repeat' first
      | exact ⟨_, rfl⟩
      | split

/-- C7: for a generic iterator record, `step_value` calls the stored next
method with the iterator object as `this`; a non-object result throws
TypeError; otherwise `done` is read and coerced to boolean — when done the
step yields `none`, otherwise it reads and yields `value`. Errors from the
user-code calls propagate, and the iterator record survives the step
unchanged (it is rooted across the calls). -/
theorem claim_C7 (h : IterHost) (it : GenericIteratorRecord) :
    (∀ e, h.callNext it.next_method it.iterator = .error e →
      generic_step_value h it = .error e) ∧
    (∀ r, h.callNext it.next_method it.iterator = .ok r → isObject r = false →
      generic_step_value h it = .error JsError.TypeErr) ∧
    (∀ r dv, h.callNext it.next_method it.iterator = .ok r → isObject r = true →
      h.getProp r doneKey = .ok dv → to_boolean dv = true →
      generic_step_value h it = .ok (it, none)) ∧
    (∀ r dv v, h.callNext it.next_method it.iterator = .ok r → isObject r = true →
      h.getProp r doneKey = .ok dv → to_boolean dv = false →
      h.getProp r valueKey = .ok v →
      generic_step_value h it = .ok (it, some v)) := by
  refine ⟨?_, ?_, ?_, ?_⟩ <;> intros <;> simp_all [generic_step_value]

/-- C8: `for`-`in` enumeration through `ObjectPropertiesIterator` never
yields the same key twice across the prototype chain: the visited-keys set
accumulates across prototype levels, every yielded key lands in it first, and
keys already visited (yielded or observed on a nearer object) are skipped
when they reappear on an ancestor. Stated for any starting state: the yield
sequence is duplicate-free and disjoint from the keys already visited. -/
theorem claim_C8 (heap : Nat → ObjData) (stepFuel : Nat) :
    ∀ (n : Nat) (s : ObjectPropertiesIterator),
      (opi_run heap stepFuel n s).Nodup ∧
      (∀ k ∈ opi_run heap stepFuel n s, k ∉ s.visited_keys) := by
  intro n
  induction n with
  | zero => intro s; simp [opi_run]
  | succ n ih =>
    intro s
    unfold opi_run
    cases hn : opi_next heap stepFuel s with
    | none => simp
    | some r =>
      obtain ⟨out, s1⟩ := r
      cases out with
      | none => simp
      | some k =>
        obtain ⟨hsub, hyield⟩ := opi_next_spec heap stepFuel s s1 (some k) hn
        obtain ⟨hk_not, hk_in⟩ := hyield k rfl
        obtain ⟨ih_nodup, ih_not⟩ := ih s1
        dsimp only
        constructor
        · refine List.Nodup.cons ?_ ih_nodup
          intro hc
          exact ih_not k hc hk_in
        · intro k2 hk2
          rcases List.mem_cons.mp hk2 with rfl | h2
          · exact hk_not
          · intro hc
            exact ih_not k2 h2 (hsub k2 hc)

/-- C8 witness: on a two-level prototype chain where the child shadows key
`"a"`, a full `for`-`in` run yields no key twice. -/
theorem claim_C8_witness :
    (opi_run
      (fun n =>
        if n = 0 then
          { keys := [PropertyKey.Str ("a")],
            props := [(PropertyKey.Str ("a"),
              { value := some (Value.SmallInt 1), enumerable := some true })],
            proto := some 1 }
        else
          { keys := [PropertyKey.Str ("a"), PropertyKey.Str ("b")],
            props := [(PropertyKey.Str ("a"),
              { value := some (Value.SmallInt 2), enumerable := some true }),
              (PropertyKey.Str ("b"),
              { value := some (Value.SmallInt 3), enumerable := some true })],
            proto := none })
      5 5 (ObjectPropertiesIterator.new 0)).Nodup := by
  exact (claim_C8 _ 5 5 (ObjectPropertiesIterator.new 0)).1

/-- C6: in non-strict `eval_declaration_instantiation`, when any non-object
environment layer on the walk from `lexEnv` out to `varEnv` already binds one
of the eval body's var-declared names, a SyntaxError is thrown — and since
the conflict checks run before the binding phase, no binding is created and
every enclosing environment (in particular an outer `let x`) is left
untouched. -/
theorem claim_C6 (s : EvalScope) (varNames lexNames : List String)
    (funcs : List (String × Value))
    (hconf : ∃ l ∈ s.lexEnv :: s.middle, l.kind ≠ EnvKind.objectEnv ∧
      ∃ n ∈ varNames, l.hasBinding n = true) :
    eval_declaration_instantiation false s varNames lexNames funcs =
      Except.error JsError.SyntaxErr := by
  unfold eval_declaration_instantiation
  rw [if_pos rfl]
  cases hg : globalLexicalConflict s varNames with
  | some m => rfl
  | none =>
    have hs := hoistingConflictCheck_isSome varNames (s.lexEnv :: s.middle) hconf
    cases hc : hoistingConflictCheck varNames (s.lexEnv :: s.middle) with
    | none => rw [hc] at hs; simp at hs
    | some m => rfl

/-- C6 witness: the spec's scenario S3 — direct eval of `var x = 2;` inside a
scope whose enclosing declarative layer holds `let x = 1` throws SyntaxError
(so the outer `x` binding, part of the untouched input scope, stays `1`). -/
theorem claim_C6_witness :
    eval_declaration_instantiation false
      { lexEnv := { kind := EnvKind.declarative, bindings := [] },
        middle := [{ kind := EnvKind.declarative,
                     bindings := [(("x"), Value.SmallInt 1)] }],
        varEnv := { kind := EnvKind.functionEnv, bindings := [] },
        varEnvIsGlobal := false, globalLexicalNames := [] }
      [("x")] [] [] = Except.error JsError.SyntaxErr := by
  refine claim_C6 _ _ _ _ ?_
  refine ⟨{ kind := EnvKind.declarative, bindings := [(("x"), Value.SmallInt 1)] },
    by simp, by decide, ("x"), by simp, by decide⟩

/-- C2: Array `[[DefineOwnProperty]]` on an in-range integer index `i` at or
past `length`: when `len_writable` is false it returns false and changes
nothing; when `len_writable` is true it grows the element storage, leaves
every slot in `[old length, i)` a hole, places the new property (the
descriptor's value and side-table entry) at `i`, sets the length to `i + 1`
and returns true. Consequently, once `len_writable` is false, no sequence of
integer-index defines ever makes a define on an index at or past the current
length return true. -/
theorem claim_C2 (a : ArrayHeapData) (i : Nat) (d : PropertyDescriptor)
    (hrange : i ≤ 2 ^ 32 - 2)
    (hlen : a.elements.len ≤ i)
    (hwf : ∀ j, a.elements.len ≤ j → a.elements.getDescriptor j = none) :
    (a.elements.len_writable = false →
      try_define_own_property a (.Integer (i : Int)) d = .Continue (a, false)) ∧
    (a.elements.len_writable = true →
      ∃ a2, try_define_own_property a (.Integer (i : Int)) d = .Continue (a2, true) ∧
        a2.elements.len = i + 1 ∧
        (∀ j, a.elements.len ≤ j → j < i → a2.elements.isHole j) ∧
        a2.elements.getValue i = d.value ∧
        a2.elements.getDescriptor i = ElementDescriptor.from_property_descriptor d ∧
        (∀ j, j < a.elements.len →
          a2.elements.getValue j = a.elements.getValue j ∧
          a2.elements.getDescriptor j = a.elements.getDescriptor j) ∧
        a2.elements.len_writable = true ∧
        a2.object_index = a.object_index) ∧
    (∀ (b : ArrayHeapData) (ds : List (Int × PropertyDescriptor)) (j : Int)
        (e : PropertyDescriptor),
      b.elements.len_writable = false → inArrayIndexRange j →
      (applyDefines b ds).elements.len ≤ j.toNat →
      (defineStep (applyDefines b ds) (.Integer j) e).2 = false) := by
  have hr : inArrayIndexRange (i : Int) :=
    ⟨Int.natCast_nonneg i, by omega⟩
  have htn : ((i : Int)).toNat = i := Int.toNat_natCast i
  refine ⟨?_, ?_, ?_⟩
  · intro hw
    exact tryDefine_ge_not_writable a (i : Int) d hr (by omega) hw
  · intro hw
    refine ⟨{ a with elements := (a.elements.growTo i).push d.value (ElementDescriptor.from_property_descriptor d) }, ?_, ?_, ?_, ?_, ?_, ?_, by simp [hw], rfl⟩
    · unfold try_define_own_property
      rw [if_neg (integer_ne_lengthKey (i : Int))]
      dsimp only
      rw [if_neg (not_not_intro hr), htn, if_pos hlen, if_neg (by simp [hw])]
    · rw [SealableElementsVector.push_len,
        SealableElementsVector.growTo_len a.elements i hlen]
    · intro j hj1 hj2
      have hjg : j < (a.elements.growTo i).len := by
        rw [SealableElementsVector.growTo_len a.elements i hlen]; omega
      constructor
      · rw [SealableElementsVector.push_getValue_lt _ _ _ j hjg]
        exact SealableElementsVector.growTo_getValue_ge a.elements i j hj1
      · rw [SealableElementsVector.push_getDescriptor_ne _ _ _ j
          (by rw [SealableElementsVector.growTo_len a.elements i hlen]; omega)]
        rw [SealableElementsVector.growTo_getDescriptor]
        exact hwf j hj1
    · have h1 : (a.elements.growTo i).len = i :=
        SealableElementsVector.growTo_len a.elements i hlen
      calc ((a.elements.growTo i).push d.value
              (ElementDescriptor.from_property_descriptor d)).getValue i
          = ((a.elements.growTo i).push d.value
              (ElementDescriptor.from_property_descriptor d)).getValue
                (a.elements.growTo i).len := by rw [h1]
        _ = d.value := SealableElementsVector.push_getValue_last _ _ _
    · have h1 : (a.elements.growTo i).len = i :=
        SealableElementsVector.growTo_len a.elements i hlen
      have h2 : (a.elements.growTo i).getDescriptor (a.elements.growTo i).len
          = none := by
        rw [SealableElementsVector.growTo_getDescriptor, h1]
        exact hwf i hlen
      calc ((a.elements.growTo i).push d.value
              (ElementDescriptor.from_property_descriptor d)).getDescriptor i
          = ((a.elements.growTo i).push d.value
              (ElementDescriptor.from_property_descriptor d)).getDescriptor
                (a.elements.growTo i).len := by rw [h1]
        _ = ElementDescriptor.from_property_descriptor d :=
            SealableElementsVector.push_getDescriptor_self _ _ _ h2
    · intro j hj
      have hjg : j < (a.elements.growTo i).len := by
        rw [SealableElementsVector.growTo_len a.elements i hlen]; omega
      constructor
      · rw [SealableElementsVector.push_getValue_lt _ _ _ j hjg]
        exact SealableElementsVector.growTo_getValue_lt a.elements i j hj
      · rw [SealableElementsVector.push_getDescriptor_ne _ _ _ j
          (by rw [SealableElementsVector.growTo_len a.elements i hlen]; omega)]
        rw [SealableElementsVector.growTo_getDescriptor]
  · intro b ds j e hbw hjr hjlen
    have hpres := applyDefines_preserves ds b
    have hw2 : (applyDefines b ds).elements.len_writable = false := by
      rw [hpres, hbw]
    have hstep := tryDefine_ge_not_writable (applyDefines b ds) j e hjr hjlen hw2
    unfold defineStep
    rw [hstep]

/-- C2 witness: on `[1]` with a non-writable length, defining index 5 returns
false and changes nothing; on `[1]` with a writable length it succeeds, the
length becomes 6 and slot 3 is a hole. -/
theorem claim_C2_witness :
    try_define_own_property
      { object_index := none,
        elements := { values := [some (Value.SmallInt 1)],
                      descriptors := [], len_writable := false } }
      (.Integer 5)
      { value := some (Value.SmallInt 7), writable := some true,
        enumerable := some true, configurable := some true } =
      .Continue
        ({ object_index := none,
           elements := { values := [some (Value.SmallInt 1)],
                         descriptors := [], len_writable := false } }, false) ∧
    ∃ a2, try_define_own_property
      { object_index := none,
        elements := { values := [some (Value.SmallInt 1)],
                      descriptors := [], len_writable := true } }
      (.Integer 5)
      { value := some (Value.SmallInt 7), writable := some true,
        enumerable := some true, configurable := some true } =
        .Continue (a2, true) ∧
      a2.elements.len = 6 ∧ a2.elements.isHole 3 := by
  constructor
  · exact (claim_C2
      { object_index := none,
        elements := { values := [some (Value.SmallInt 1)],
                      descriptors := [], len_writable := false } }
      5 _ (by norm_num) (by norm_num [SealableElementsVector.len])
      (fun j hj => rfl)).1 rfl
  · obtain ⟨-, h2, -⟩ := claim_C2
      { object_index := none,
        elements := { values := [some (Value.SmallInt 1)],
                      descriptors := [], len_writable := true } }
      5
      { value := some (Value.SmallInt 7), writable := some true,
        enumerable := some true, configurable := some true }
      (by norm_num) (by norm_num [SealableElementsVector.len])
      (fun j hj => rfl)
    obtain ⟨a2, ha, hlen, hholes, -⟩ := h2 rfl
    exact ⟨a2, ha, hlen, hholes 3
      (by norm_num [SealableElementsVector.len]) (by norm_num)⟩

/-- C1 counterexample: an array of length 1 whose only slot is an accessor
property (value absent, descriptor present) is *not* a hole, so the claim
demands `[[OwnPropertyKeys]] = [0]`; the code walks only the value slots and
returns `[]`. -/
theorem claim_C1_counterexample :
    try_own_property_keys
      { object_index := none,
        elements := { values := [none],
                      descriptors := [(0,
                        { getter := some 0, setter := none, writable := none,
                          enumerable := true, configurable := true })],
                      len_writable := true } } ≠
    TryResult.Continue (spec_own_property_keys
      { object_index := none,
        elements := { values := [none],
                      descriptors := [(0,
                        { getter := some 0, setter := none, writable := none,
                          enumerable := true, configurable := true })],
                      len_writable := true } }) := by
  decide

/-- C1 (amended): `[[OwnPropertyKeys]]` returns exactly the integer-index
keys of the slots whose *value* is present — accessor-only slots, although
not holes, are skipped — in strictly ascending index order, followed by the
backing object's own keys in the backing object's own-key order. -/
theorem claim_C1_amended (a : ArrayHeapData) :
    try_own_property_keys a =
      TryResult.Continue
        ((presentIdxs a).map (fun i : Nat => PropertyKey.Integer (i : Int)) ++
          backingKeysOf a) ∧
    List.Pairwise (· < ·) (presentIdxs a) := by
  constructor
  · unfold try_own_property_keys presentIdxs backingKeysOf
    dsimp only
    rw [filterMap_ite_eq_map_filter]
  · exact (List.pairwise_lt_range a.elements.len).sublist (List.filter_sublist _)

/-- C4: for an `ArrayValuesIterator` over array `A`, (a) when every slot in
`[0, length)` holds a value, iterating from index 0 yields exactly the
elements of `A` in ascending index order and then `none` forever; (b) each
step re-reads the current length and stops as soon as the index reaches it;
(c) a slot with a present value is yielded straight from element storage;
(d) an absent slot goes through the full `[[Get]]` (which may run a getter). -/
theorem claim_C4 (a : ArrayHeapData) (g : Nat → Value) :
    ((∀ i, i < a.elements.len → (a.elements.getValue i).isSome = true) →
      ∀ k, array_values_steps a g k =
        (min k a.elements.len,
         (List.range k).map (fun i =>
           if i < a.elements.len then a.elements.getValue i else none))) ∧
    (∀ idx, a.elements.len ≤ idx → array_values_next a g idx = (none, idx)) ∧
    (∀ idx v, idx < a.elements.len → a.elements.getValue idx = some v →
      array_values_next a g idx = (some v, idx + 1)) ∧
    (∀ idx, idx < a.elements.len → a.elements.getValue idx = none →
      array_values_next a g idx = (some (g idx), idx + 1)) := by
  have hnext_ge : ∀ idx, a.elements.len ≤ idx →
      array_values_next a g idx = (none, idx) := by
    intro idx h
    unfold array_values_next
    rw [if_pos h]
  have hnext_some : ∀ idx v, idx < a.elements.len →
      a.elements.getValue idx = some v →
      array_values_next a g idx = (some v, idx + 1) := by
    intro idx v h hv
    unfold array_values_next
    rw [if_neg (by omega), hv]
  have hnext_none : ∀ idx, idx < a.elements.len →
      a.elements.getValue idx = none →
      array_values_next a g idx = (some (g idx), idx + 1) := by
    intro idx h hv
    unfold array_values_next
    rw [if_neg (by omega), hv]
  refine ⟨?_, hnext_ge, hnext_some, hnext_none⟩
  intro hdense k
  induction k with
  | zero => simp [array_values_steps]
  | succ k ih =>
    unfold array_values_steps
    rw [ih]
    dsimp only
    by_cases hk : k < a.elements.len
    · have hmin : min k a.elements.len = k := by omega
      rw [hmin]
      obtain ⟨v, hv⟩ := Option.isSome_iff_exists.mp (hdense k hk)
      rw [hnext_some k v hk hv]
      have hmin2 : min (k + 1) a.elements.len = k + 1 := by omega
      rw [List.range_succ, List.map_append, hmin2]
      simp [hk, hv]
    · have hmin : min k a.elements.len = a.elements.len := by omega
      rw [hmin, hnext_ge _ le_rfl]
      have hmin2 : min (k + 1) a.elements.len = a.elements.len := by omega
      rw [List.range_succ, List.map_append, hmin2]
      simp [hk]

/-- C4 witness: iterating `[1, 2]` for three steps yields `1`, `2`, then
`none`. -/
theorem claim_C4_witness :
    array_values_steps
      { object_index := none,
        elements := { values := [some (Value.SmallInt 1), some (Value.SmallInt 2)],
                      descriptors := [], len_writable := true } }
      (fun _ => Value.Undefined) 3 =
      (2, [some (Value.SmallInt 1), some (Value.SmallInt 2), none]) := by
  have h := (claim_C4
    { object_index := none,
      elements := { values := [some (Value.SmallInt 1), some (Value.SmallInt 2)],
                    descriptors := [], len_writable := true } }
    (fun _ => Value.Undefined)).1
    (by
      intro i hi
      have h2 : i < 2 := hi
      interval_cases i <;> rfl) 3
  exact h.trans (by decide)

/-- C3: Array `[[GetOwnProperty]]` on an in-range integer index is absent for
every index at or past `length`, and below `length` it is absent exactly when
the slot is a hole (no value and no descriptor). -/
theorem claim_C3 (a : ArrayHeapData) (i : Int) (hr : inArrayIndexRange i) :
    (a.elements.len ≤ i.toNat →
      try_get_own_property a (.Integer i) = .Continue none) ∧
    (i.toNat < a.elements.len →
      (try_get_own_property a (.Integer i) = .Continue none ↔
        a.elements.isHole i.toNat)) := by
  unfold try_get_own_property
  dsimp only
  rw [if_neg (not_not_intro hr)]
  constructor
  · intro hlen
    rw [if_pos hlen]
  · intro hlen
    rw [if_neg (by omega : ¬ i.toNat ≥ a.elements.len)]
    by_cases hh : a.elements.getValue i.toNat = none ∧
        a.elements.getDescriptor i.toNat = none
    · rw [if_pos hh]
      exact ⟨fun _ => hh, fun _ => rfl⟩
    · rw [if_neg hh]
      constructor
      · intro hcon; simp at hcon
      · intro hhole; exact absurd hhole hh

/-- C3 witness: `[10, <hole>]` — reading index 5 (past length) is absent, and
reading the hole at index 1 is absent. -/
theorem claim_C3_witness :
    try_get_own_property
      { object_index := none,
        elements := { values := [some (Value.SmallInt 10), none],
                      descriptors := [], len_writable := true } }
      (.Integer 5) = .Continue none ∧
    try_get_own_property
      { object_index := none,
        elements := { values := [some (Value.SmallInt 10), none],
                      descriptors := [], len_writable := true } }
      (.Integer 1) = .Continue none := by
  constructor
  · exact (claim_C3 _ 5 (by constructor <;> norm_num)).1 (by norm_num
      [SealableElementsVector.len])
  · exact ((claim_C3 _ 1 (by constructor <;> norm_num)).2 (by norm_num
      [SealableElementsVector.len])).mpr (by constructor <;> rfl)

/-- C5: Array `[[Delete]]` — deleting `"length"` is a no-op returning true;
deleting an in-range index at or past `length` returns true and changes
nothing; deleting an index below `length` refuses (false, state unchanged)
when the slot's descriptor is non-configurable and otherwise clears the value
slot, removes any descriptor, returns true and leaves every other slot and
the backing object untouched. -/
theorem claim_C5 (a : ArrayHeapData) (i : Int) (hr : inArrayIndexRange i) :
    try_delete a lengthKey = .Continue (a, true) ∧
    (a.elements.len ≤ i.toNat → try_delete a (.Integer i) = .Continue (a, true)) ∧
    (i.toNat < a.elements.len →
      (∀ d, a.elements.getDescriptor i.toNat = some d → d.configurable = false →
        try_delete a (.Integer i) = .Continue (a, false)) ∧
      ((∀ d, a.elements.getDescriptor i.toNat = some d → d.configurable = true) →
        ∃ a2, try_delete a (.Integer i) = .Continue (a2, true) ∧
          a2.elements.getValue i.toNat = none ∧
          a2.elements.getDescriptor i.toNat = none ∧
          a2.object_index = a.object_index ∧
          a2.elements.len = a.elements.len ∧
          a2.elements.len_writable = a.elements.len_writable ∧
          (∀ j, ¬ j = i.toNat →
            a2.elements.getValue j = a.elements.getValue j ∧
            a2.elements.getDescriptor j = a.elements.getDescriptor j))) := by
  refine ⟨rfl, ?_, ?_⟩
  · intro hlen
    unfold try_delete
    rw [if_neg (by simp [lengthKey])]
    dsimp only
    rw [if_neg (not_not_intro hr), if_pos hlen]
  · intro hlen
    constructor
    · intro d hd hconf
      unfold try_delete
      rw [if_neg (by simp [lengthKey])]
      dsimp only
      rw [if_neg (not_not_intro hr),
        if_neg (by omega : ¬ i.toNat ≥ a.elements.len), hd]
      dsimp only [ElementDescriptor.is_configurable]
      rw [hconf]
      rfl
    · intro hcfg
      cases hd : a.elements.getDescriptor i.toNat with
      | none =>
        refine ⟨{ a with elements := a.elements.setValue i.toNat none }, ?_, ?_,
          ?_, rfl, by simp, rfl, ?_⟩
        · unfold try_delete
          rw [if_neg (by simp [lengthKey])]
          dsimp only
          rw [if_neg (not_not_intro hr),
            if_neg (by omega : ¬ i.toNat ≥ a.elements.len), hd]
        · exact SealableElementsVector.getValue_setValue_self _ _ _ hlen
        · simpa using hd
        · intro j hj
          exact ⟨SealableElementsVector.getValue_setValue_ne _ _ _ _ hj, rfl⟩
      | some d =>
        have hdc : d.configurable = true := hcfg d hd
        refine ⟨{ a with elements :=
            (a.elements.removeDescriptor i.toNat).setValue i.toNat none },
          ?_, ?_, ?_, rfl, by simp, by simp, ?_⟩
        · unfold try_delete
          rw [if_neg (by simp [lengthKey])]
          dsimp only
          rw [if_neg (not_not_intro hr),
            if_neg (by omega : ¬ i.toNat ≥ a.elements.len), hd]
          dsimp only [ElementDescriptor.is_configurable]
          rw [hdc]
          rfl
        · exact SealableElementsVector.getValue_setValue_self _ _ _ (by simpa)
        · rw [SealableElementsVector.getDescriptor_setValue]
          exact SealableElementsVector.getDescriptor_removeDescriptor_self _ _
        · intro j hj
          refine ⟨SealableElementsVector.getValue_setValue_ne _ _ _ _ hj, ?_⟩
          rw [SealableElementsVector.getDescriptor_setValue]
          exact SealableElementsVector.getDescriptor_removeDescriptor_ne _ _ _ hj

/-- C5 witness: on `[1]` with a default slot, deleting index 0 succeeds and
clears the slot. -/
theorem claim_C5_witness :
    ∃ a2, try_delete
      { object_index := none,
        elements := { values := [some (Value.SmallInt 1)],
                      descriptors := [], len_writable := true } }
      (.Integer 0) = .Continue (a2, true) ∧
      a2.elements.getValue 0 = none ∧ a2.elements.getDescriptor 0 = none := by
  obtain ⟨-, -, h3⟩ := claim_C5
    { object_index := none,
      elements := { values := [some (Value.SmallInt 1)],
                    descriptors := [], len_writable := true } }
    0 (by constructor <;> norm_num)
  obtain ⟨-, h⟩ := h3 (by norm_num [SealableElementsVector.len])
  obtain ⟨a2, h1, h2, h4, -⟩ := h (fun d hd => Option.noConfusion hd)
  exact ⟨a2, h1, h2, h4⟩

/-- C7 witness: a concrete host whose `next` yields `{done: false, value: 7}`
makes one step produce `some 7` with the record intact. -/
theorem claim_C7_witness :
    generic_step_value
      { callNext := fun _ _ => .ok (Value.Obj 9),
        getProp := fun _ k =>
          if k = doneKey then .ok (Value.Boolean false) else .ok (Value.SmallInt 7) }
      { iterator := Value.Obj 1, next_method := Value.Obj 2 } =
      .ok ({ iterator := Value.Obj 1, next_method := Value.Obj 2 }, some (Value.SmallInt 7)) := by
  exact (claim_C7 _ _).2.2.2 (Value.Obj 9) (Value.Boolean false) (Value.SmallInt 7)
    rfl rfl rfl rfl rfl

end Nova
